import Mathlib

set_option autoImplicit false

namespace DVR

/-!
Shallow embedding of dvr.py, a simulation of the Distance Vector Routing
protocol. Python dicts over string keys are embedded as association lists
with dict semantics (unique keys, in-place update, append of fresh keys);
Python ints are embedded as Int. The concurrent parts (threads, locks,
condition waits, sleeps) are not embedded; the pure state transformations
performed by the Router and Network methods are.
-/

/-- Entry of a distance vector: the cost of the current best known path and
the next hop, which is none only on the path from a node to itself.
Embeds the value type of the DistanceVector alias of dvr.py line 20. -/
abbrev Entry : Type := Int × Option String

/-- Distance vector: a Python dict from node name to entry, embedded as an
association list with unique keys. -/
abbrev DV : Type := List (String × Entry)

/-- Python dict lookup dv[k] returning none when the key is absent; also
used as the membership test (k in dv is the isSome of this). -/
def dictGet? (dv : DV) (k : String) : Option Entry :=
  match dv with
  | [] => none
  | (k0, v0) :: rest => if k0 = k then some v0 else dictGet? rest k

/-- Python dict assignment dv[k] = v: updates the value in place when the
key is present, appends the pair at the end otherwise. -/
def dictSet (dv : DV) (k : String) (v : Entry) : DV :=
  match dv with
  | [] => [(k, v)]
  | (k0, v0) :: rest => if k0 = k then (k0, v) :: rest else (k0, v0) :: dictSet rest k v

/-- Router state: its name, its outgoing links (each link embedded as the
pair of its cost and the name of its destination router, which is what
Link.get_info reports), and its distance vector. Embeds the fields _name,
_links and _dv of the Router class of dvr.py. -/
structure RouterSt where
  name : String
  links : List (Int × String)
  dv : DV
deriving DecidableEq, Repr

/-- Result of running Router.dvr_start: the new distance vector, the log
calls made (log_dv prints a snapshot of the dict at call time, so a log
record carries a DV value), and the datagrams handed to Link.send. A sent
datagram is recorded as the pair (sender name, destination name): dvr.py
line 83 sends the object self._dv itself, so the payload of a datagram in
flight is an alias of the dict owned by the sender, whose content is
resolved at delivery time, not at send time. -/
structure StartOut where
  dv : DV
  logs : List (String × DV)
  sent : List (String × String)
deriving DecidableEq, Repr

/-- Router._find_neighbors (dvr.py lines 76 to 79): for every outgoing
link, insert the destination under its name with the link cost and the
destination itself as next hop. -/
def findNeighbors (links : List (Int × String)) (dv : DV) : DV :=
  links.foldl (fun d cn => dictSet d cn.2 (cn.1, some cn.2)) dv

/-- Router.dvr_start (dvr.py lines 63 to 73): insert the self entry
(0, none), log the table, discover the neighbors, then broadcast the table
on every outgoing link. The single log call happens after the self entry
is inserted and before the neighbors are discovered. -/
def dvrStart (r : RouterSt) : StartOut :=
  let dv1 := dictSet r.dv r.name (0, none)
  let dv2 := findNeighbors r.links dv1
  { dv := dv2
    logs := [(r.name, dv1)]
    sent := r.links.map (fun cn => (r.name, cn.2)) }

/-- The router state after its dvr_start has completed. -/
def startRouter (r : RouterSt) : RouterSt :=
  { r with dv := (dvrStart r).dv }

/-- Result of running Router.receive on one datagram: the new distance
vector, the changed flag, the log calls and the datagrams handed to
Link.send. -/
structure RecvOut where
  dv : DV
  changed : Bool
  logs : List (String × DV)
  sent : List (String × String)
deriving DecidableEq, Repr

/-- One iteration of the loop of Router.receive (dvr.py lines 96 to 102)
on the entry e = (node_name, (cost, next_hop)) of the received table: when
node_name is absent from the local table, or link_cost + cost is strictly
below the current local cost for node_name, set the local entry to
(link_cost + cost, sender) and raise the changed flag; otherwise leave the
accumulator untouched. -/
def relaxStep (linkCost : Int) (sender : String) (acc : DV × Bool) (e : String × Entry) : DV × Bool :=
  match dictGet? acc.1 e.1 with
  | none => (dictSet acc.1 e.1 (linkCost + e.2.1, some sender), true)
  | some cur =>
    if linkCost + e.2.1 < cur.1 then (dictSet acc.1 e.1 (linkCost + e.2.1, some sender), true)
    else acc

/-- Router.receive (dvr.py lines 86 to 106) on the datagram
(sender, received), run after the initialization wait has passed: read
link_cost from the local entry for the sender (none embeds the KeyError
raised when the sender is unknown, which aborts the call before any table
write), fold the relaxation loop over the received entries, and when the
changed flag is raised log the updated table and broadcast it on every
outgoing link. -/
def receiveFull (r : RouterSt) (sender : String) (received : DV) : Option RecvOut :=
  match dictGet? r.dv sender with
  | none => none
  | some lc =>
    let res := received.foldl (relaxStep lc.1 sender) (r.dv, false)
    some { dv := res.1
           changed := res.2
           logs := if res.2 then [(r.name, res.1)] else []
           sent := if res.2 then r.links.map (fun cn => (r.name, cn.2)) else [] }

/-- The router state after receiving one datagram: the table is replaced
by the result of receiveFull; a KeyError on the sender lookup leaves the
table unchanged (the exception propagates in the delivery thread before
any write to the dict). -/
def receiveStep (r : RouterSt) (msg : String × DV) : RouterSt :=
  match receiveFull r msg.1 msg.2 with
  | none => r
  | some out => { r with dv := out.dv }

/-- The router state after receiving a sequence of datagrams in order. -/
def receiveMany (r : RouterSt) (msgs : List (String × DV)) : RouterSt :=
  msgs.foldl receiveStep r

/-- Whole-network state: the routers (each owning its table) and the
datagrams in flight. A datagram is the pair (sender name, destination
name): dvr.py line 83 passes the object self._dv to Link.send, and the
field _dv of a Router is assigned once in the constructor and afterwards
only mutated in place by subscript assignment (lines 66, 79, 101), so the
payload carried by a datagram in flight is the dict the sender owns; its
content at any instant is the sender table at that instant. -/
structure Net where
  routers : List RouterSt
  flight : List (String × String)
deriving DecidableEq, Repr

/-- Lookup the router carrying a given name. -/
def getRouter? (rs : List RouterSt) (n : String) : Option RouterSt :=
  match rs with
  | [] => none
  | r :: rest => if r.name = n then some r else getRouter? rest n

/-- Replace the router carrying the given name. -/
def setRouter (rs : List RouterSt) (r : RouterSt) : List RouterSt :=
  match rs with
  | [] => []
  | r0 :: rest => if r0.name = r.name then r :: rest else r0 :: setRouter rest r

/-- Content, at the current instant, of the payload of a datagram in
flight: the current table of its sender, because the payload aliases the
dict the sender owns (see Net). -/
def datagramContent (net : Net) (m : String × String) : Option DV :=
  (getRouter? net.routers m.1).map RouterSt.dv

/-- Run dvr_start on the named router: its table is replaced and the
datagrams it broadcast join the flight. -/
def netStart (net : Net) (n : String) : Net :=
  match getRouter? net.routers n with
  | none => net
  | some r =>
    let out := dvrStart r
    { routers := setRouter net.routers { r with dv := out.dv }
      flight := net.flight ++ out.sent }

/-- Deliver the datagram at position i of the flight: it leaves the
flight, its destination runs receive on it, reading the payload content at
delivery time (the sender table as it is now, not as it was at send time),
and any datagrams broadcast by that receive join the flight. -/
def netDeliver (net : Net) (i : Nat) : Net :=
  match net.flight.get? i with
  | none => net
  | some m =>
    let net1 : Net := { net with flight := net.flight.eraseIdx i }
    match getRouter? net1.routers m.2, datagramContent net1 m with
    | some rd, some payload =>
      match receiveFull rd m.1 payload with
      | none => net1
      | some out =>
        { routers := setRouter net1.routers { rd with dv := out.dv }
          flight := net1.flight ++ out.sent }
    | _, _ => net1

/-- Routers of the Network constructor embedding: each router is its name
together with its outgoing links, a link being the pair of its cost and
the position of the destination router in the node list. Positions stand
for the object identity of the Python Router instances, so duplicate names
build distinct routers. -/
abbrev NetRouters := List (String × List (Int × Nat))

/-- itertools.combinations(l, 2) on positions: all pairs (x, y) with x
before y, in the combinatorial enumeration order. -/
def pairsFrom : List Nat → List (Nat × Nat)
  | [] => []
  | x :: xs => xs.map (fun y => (x, y)) ++ pairsFrom xs

/-- Router.connect (dvr.py lines 59 and 60): append one outgoing link to
the router at position i. -/
def addLink (rs : NetRouters) (i : Nat) (c : Int) (j : Nat) : NetRouters :=
  match rs.get? i with
  | none => rs
  | some r => rs.set i (r.1, r.2 ++ [(c, j)])

/-- Network._connect (dvr.py lines 122 to 124): create the two directed
links between the routers at positions i and j, both carrying cost c. -/
def connect (rs : NetRouters) (i j : Nat) (c : Int) : NetRouters :=
  addLink (addLink rs i c j) j c i

/-- One step of the construction loop of Network (dvr.py lines 117 to
119): the Python guard is the truthiness test if cost, so both None and
the integer 0 skip the pair, and every other integer, negative ones
included, creates the two links. -/
def initStep (rs : NetRouters) (pc : (Nat × Nat) × Option Int) : NetRouters :=
  match pc.2 with
  | none => rs
  | some c => if c = 0 then rs else connect rs pc.1.1 pc.1.2 c

/-- Network constructor (dvr.py lines 115 to 119): build one router per
name, then zip the 2-combinations of the routers with the cost list (zip
stops at the shorter of the two) and connect each pair whose cost is
truthy. No validation of any kind is performed and no code path raises. -/
def networkInit (names : List String) (costs : List (Option Int)) : NetRouters :=
  (List.zip (pairsFrom (List.range names.length)) costs).foldl initStep
    (names.map (fun n => (n, ([] : List (Int × Nat)))))

/-! Basic lemmas about the dict embedding. -/

theorem dictGet?_dictSet (dv : DV) (k k' : String) (v : Entry) :
    dictGet? (dictSet dv k v) k' = if k = k' then some v else dictGet? dv k' := by
  induction dv with
  | nil => simp [dictSet, dictGet?]
  | cons p rest ih =>
    obtain ⟨k0, v0⟩ := p
    simp only [dictSet]
    by_cases h0 : k0 = k
    · subst h0
      by_cases h1 : k0 = k'
      · subst h1; simp [dictGet?]
      · simp [dictGet?, h1]
    · by_cases h1 : k0 = k'
      · subst h1
        have hkk : ¬ k = k0 := fun h => h0 h.symm
        simp [dictGet?, h0, hkk]
      · simp [dictGet?, h0, h1, ih]

theorem dictGet?_mem (dv : DV) (k : String) (v : Entry) (h : dictGet? dv k = some v) :
    (k, v) ∈ dv := by
  induction dv with
  | nil => simp [dictGet?] at h
  | cons p rest ih =>
    obtain ⟨k0, v0⟩ := p
    by_cases h0 : k0 = k
    · subst h0
      simp [dictGet?] at h
      simp [h]
    · simp [dictGet?, h0] at h
      exact List.mem_cons_of_mem _ (ih h)

/-- A relaxation step writes only at the key of the entry it examines. -/
theorem relaxStep_get_ne (lc : Int) (s : String) (acc : DV × Bool) (e : String × Entry)
    (k : String) (h : e.1 ≠ k) :
    dictGet? (relaxStep lc s acc e).1 k = dictGet? acc.1 k := by
  unfold relaxStep
  rcases hg : dictGet? acc.1 e.1 with _ | cur
  · simp [dictGet?_dictSet, h]
  · by_cases hlt : lc + e.2.1 < cur.1
    · simp [hlt, dictGet?_dictSet, h]
    · simp [hlt]

/-- The relaxation loop leaves keys that the received table does not carry
untouched. -/
theorem foldl_relax_get_notMem (lc : Int) (s : String) (es : List (String × Entry))
    (acc : DV × Bool) (k : String) (h : k ∉ es.map Prod.fst) :
    dictGet? (es.foldl (relaxStep lc s) acc).1 k = dictGet? acc.1 k := by
  induction es generalizing acc with
  | nil => rfl
  | cons e es ih =>
    simp only [List.map_cons, List.mem_cons] at h
    push_neg at h
    rw [List.foldl_cons, ih _ h.2, relaxStep_get_ne]
    exact fun he => h.1 he.symm

/-- At the key of an entry carried by the received table (with the unique
keys of a Python dict), the relaxation loop applies exactly the update
rule of the code to the value the accumulator held on entry. -/
theorem foldl_relax_get_mem (lc : Int) (s : String) (es : List (String × Entry))
    (acc : DV × Bool) (d : String) (c : Int) (nh : Option String)
    (hnd : (es.map Prod.fst).Nodup) (he : (d, (c, nh)) ∈ es) :
    dictGet? (es.foldl (relaxStep lc s) acc).1 d =
      match dictGet? acc.1 d with
      | none => some (lc + c, some s)
      | some cur => if lc + c < cur.1 then some (lc + c, some s) else some cur := by
  induction es generalizing acc with
  | nil => simp at he
  | cons e es ih =>
    simp only [List.map_cons, List.nodup_cons] at hnd
    rcases List.mem_cons.1 he with he1 | he1
    · subst he1
      have hd : d ∉ es.map Prod.fst := hnd.1
      rw [List.foldl_cons, foldl_relax_get_notMem _ _ _ _ _ hd]
      unfold relaxStep
      rcases hg : dictGet? acc.1 d with _ | cur
      · simp [dictGet?_dictSet]
      · by_cases hlt : lc + c < cur.1
        · simp [hg, hlt, dictGet?_dictSet]
        · simp [hg, hlt]
    · have hne : e.1 ≠ d := by
        intro hh
        exact hnd.1 (hh ▸ (List.mem_map.2 ⟨_, he1, rfl⟩))
      rw [List.foldl_cons, ih _ hnd.2 he1, relaxStep_get_ne _ _ _ _ _ hne]

/-- C1: Router.receive updates the local table exactly per the relaxation
rule: for each entry (destination, (cost, nh)) of the received table, the
local entry for destination becomes (link_cost + cost, sender) when
destination is absent from the local table or link_cost + cost is strictly
below the current local cost, and is left exactly as it was otherwise (in
particular an equal cost candidate never replaces the existing entry);
keys the received table does not carry are untouched. link_cost is the
cost the receiver currently records for the sender. -/
theorem receive_relaxation_rule (r : RouterSt) (sender : String) (received : DV)
    (lcEntry : Entry) (hs : dictGet? r.dv sender = some lcEntry)
    (hnd : (received.map Prod.fst).Nodup) :
    ∃ out, receiveFull r sender received = some out ∧
      (∀ d c nh, (d, (c, nh)) ∈ received →
        dictGet? out.dv d =
          match dictGet? r.dv d with
          | none => some (lcEntry.1 + c, some sender)
          | some cur =>
            if lcEntry.1 + c < cur.1 then some (lcEntry.1 + c, some sender) else some cur) ∧
      (∀ d, d ∉ received.map Prod.fst → dictGet? out.dv d = dictGet? r.dv d) := by
  unfold receiveFull
  rw [hs]
  refine ⟨_, rfl, ?_, ?_⟩
  · intro d c nh he
    exact foldl_relax_get_mem lcEntry.1 sender received (r.dv, false) d c nh hnd he
  · intro d hd
    exact foldl_relax_get_notMem lcEntry.1 sender received (r.dv, false) d hd

/-- Witness for C1: a concrete router with table A at cost 0 and B at cost
1 receives from B a table carrying B at cost 0 and C at cost 2; the
hypotheses hold and the relaxation rule describes the outcome. -/
theorem receive_relaxation_rule_witness :
    dictGet? [("A", ((0 : Int), none)), ("B", ((1 : Int), some "B"))] "B" = some (1, some "B") ∧
    (([("B", ((0 : Int), (none : Option String))), ("C", ((2 : Int), some "C"))].map Prod.fst).Nodup) ∧
    ∃ out,
      receiveFull ⟨"A", [(1, "B")], [("A", (0, none)), ("B", (1, some "B"))]⟩ "B"
        [("B", (0, none)), ("C", (2, some "C"))] = some out ∧
      (∀ d c nh, (d, (c, nh)) ∈
          ([("B", ((0 : Int), (none : Option String))), ("C", ((2 : Int), some "C"))] : DV) →
        dictGet? out.dv d =
          match dictGet? [("A", ((0 : Int), (none : Option String))), ("B", ((1 : Int), some "B"))] d with
          | none => some (1 + c, some "B")
          | some cur => if 1 + c < cur.1 then some (1 + c, some "B") else some cur) ∧
      (∀ d, d ∉ ([("B", ((0 : Int), (none : Option String))), ("C", ((2 : Int), some "C"))] : DV).map Prod.fst →
        dictGet? out.dv d =
          dictGet? [("A", ((0 : Int), (none : Option String))), ("B", ((1 : Int), some "B"))] d) :=
  ⟨by decide, by decide,
    receive_relaxation_rule ⟨"A", [(1, "B")], [("A", (0, none)), ("B", (1, some "B"))]⟩ "B"
      [("B", (0, none)), ("C", (2, some "C"))] (1, some "B") (by decide) (by decide)⟩

/-- A relaxation step never increases the cost recorded at an existing
key: the entry is either left alone or replaced under a strict decrease. -/
theorem relaxStep_cost_mono (lc : Int) (s : String) (acc : DV × Bool) (e : String × Entry)
    (d : String) (c : Int) (nh : Option String) (h : dictGet? acc.1 d = some (c, nh)) :
    ∃ c2 nh2, dictGet? (relaxStep lc s acc e).1 d = some (c2, nh2) ∧ c2 ≤ c := by
  by_cases hed : e.1 = d
  · subst hed
    simp only [relaxStep, h]
    by_cases hlt : lc + e.2.1 < c
    · refine ⟨lc + e.2.1, some s, ?_, le_of_lt hlt⟩
      simp [hlt, dictGet?_dictSet]
    · exact ⟨c, nh, by simp [hlt, h], le_refl c⟩
  · rw [relaxStep_get_ne _ _ _ _ _ hed, h]
    exact ⟨c, nh, rfl, le_refl c⟩

/-- The relaxation loop never increases the cost recorded at an existing
key. -/
theorem foldl_relax_cost_mono (lc : Int) (s : String) (es : List (String × Entry))
    (acc : DV × Bool) (d : String) (c : Int) (nh : Option String)
    (h : dictGet? acc.1 d = some (c, nh)) :
    ∃ c2 nh2, dictGet? (es.foldl (relaxStep lc s) acc).1 d = some (c2, nh2) ∧ c2 ≤ c := by
  induction es generalizing acc c nh with
  | nil => exact ⟨c, nh, h, le_refl c⟩
  | cons e es ih =>
    obtain ⟨c1, nh1, h1, hle1⟩ := relaxStep_cost_mono lc s acc e d c nh h
    obtain ⟨c2, nh2, h2, hle2⟩ := ih (relaxStep lc s acc e) c1 nh1 h1
    exact ⟨c2, nh2, h2, le_trans hle2 hle1⟩

/-- One receive call never increases the cost recorded at an existing
key (a KeyError on the sender leaves the table unchanged). -/
theorem receiveStep_cost_mono (r : RouterSt) (msg : String × DV) (d : String)
    (c : Int) (nh : Option String) (h : dictGet? r.dv d = some (c, nh)) :
    ∃ c2 nh2, dictGet? (receiveStep r msg).dv d = some (c2, nh2) ∧ c2 ≤ c := by
  rcases hg : dictGet? r.dv msg.1 with _ | lcE
  · simp only [receiveStep, receiveFull, hg]
    exact ⟨c, nh, h, le_refl c⟩
  · simp only [receiveStep, receiveFull, hg]
    exact foldl_relax_cost_mono lcE.1 msg.1 msg.2 (r.dv, false) d c nh h

/-- C6: once an entry for a destination exists in a Router table, its
recorded cost never increases across any later sequence of receive calls;
successive recorded costs per destination are non-increasing. -/
theorem receive_cost_monotone (r : RouterSt) (msgs : List (String × DV)) (d : String)
    (c : Int) (nh : Option String) (h : dictGet? r.dv d = some (c, nh)) :
    ∃ c2 nh2, dictGet? (receiveMany r msgs).dv d = some (c2, nh2) ∧ c2 ≤ c := by
  induction msgs generalizing r c nh with
  | nil => exact ⟨c, nh, h, le_refl c⟩
  | cons m ms ih =>
    obtain ⟨c1, nh1, h1, hle1⟩ := receiveStep_cost_mono r m d c nh h
    obtain ⟨c2, nh2, h2, hle2⟩ := ih (receiveStep r m) c1 nh1 h1
    exact ⟨c2, nh2, h2, le_trans hle2 hle1⟩

/-- Witness for C6: a router knowing C at cost 6 receives from its cost 1
neighbor B a table carrying C at cost 2; the cost recorded for C after the
sequence is at most 6. -/
theorem receive_cost_monotone_witness :
    dictGet? [("A", ((0 : Int), none)), ("B", ((1 : Int), some "B")), ("C", ((6 : Int), some "C"))]
      "C" = some (6, some "C") ∧
    ∃ c2 nh2,
      dictGet? (receiveMany
        ⟨"A", [(1, "B")],
          [("A", (0, none)), ("B", (1, some "B")), ("C", (6, some "C"))]⟩
        [("B", [("C", (2, some "C"))])]).dv "C" = some (c2, nh2) ∧ c2 ≤ 6 :=
  ⟨by decide,
    receive_cost_monotone
      ⟨"A", [(1, "B")], [("A", (0, none)), ("B", (1, some "B")), ("C", (6, some "C"))]⟩
      [("B", [("C", (2, some "C"))])] "C" 6 (some "C") (by decide)⟩

/-- When every received entry is already known locally at a cost no worse
than the offered one, the relaxation loop returns its accumulator
unchanged, flag included. -/
theorem foldl_relax_quiescent (lc : Int) (s : String) (es : List (String × Entry))
    (dv : DV) (b : Bool)
    (h : ∀ e ∈ es, ∃ cur, dictGet? dv e.1 = some cur ∧ ¬ lc + e.2.1 < cur.1) :
    es.foldl (relaxStep lc s) (dv, b) = (dv, b) := by
  induction es with
  | nil => rfl
  | cons e es ih =>
    obtain ⟨cur, hcur, hnlt⟩ := h e (List.mem_cons_self _ _)
    have hstep : relaxStep lc s (dv, b) e = (dv, b) := by
      simp [relaxStep, hcur, hnlt]
    rw [List.foldl_cons, hstep, ih (fun e he => h e (List.mem_cons_of_mem _ he))]

/-- C7: a receive in which no received entry is absent from the local
table and none offers a strictly cheaper path leaves the table exactly
unchanged, raises no changed flag, logs nothing and broadcasts on no
outgoing link; conversely whenever the changed flag is raised the router
logs its updated table and hands one datagram to every outgoing link, the
payload being its dict, which at that instant holds the full updated
table. -/
theorem receive_quiescence_and_broadcast (r : RouterSt) (sender : String) (received : DV)
    (lcEntry : Entry) (hs : dictGet? r.dv sender = some lcEntry) :
    ∃ out, receiveFull r sender received = some out ∧
      ((∀ e ∈ received, ∃ cur, dictGet? r.dv e.1 = some cur ∧ ¬ lcEntry.1 + e.2.1 < cur.1) →
        out.dv = r.dv ∧ out.changed = false ∧ out.logs = [] ∧ out.sent = []) ∧
      (out.changed = true →
        out.logs = [(r.name, out.dv)] ∧ out.sent = r.links.map (fun cn => (r.name, cn.2))) := by
  unfold receiveFull
  rw [hs]
  refine ⟨_, rfl, ?_, ?_⟩
  · intro h
    have hq := foldl_relax_quiescent lcEntry.1 sender received r.dv false h
    simp [hq]
  · intro hch
    simp only at hch
    simp [hch]

/-- Witness for C7: a router knowing C at cost 3 via B receives from B an
offer for C at total cost 3; the tie changes nothing and an example with
the changed flag raised follows the broadcast shape. -/
theorem receive_quiescence_and_broadcast_witness :
    dictGet? [("A", ((0 : Int), none)), ("B", ((1 : Int), some "B")), ("C", ((3 : Int), some "B"))]
      "B" = some (1, some "B") ∧
    ∃ out,
      receiveFull
        ⟨"A", [(1, "B")], [("A", (0, none)), ("B", (1, some "B")), ("C", (3, some "B"))]⟩
        "B" [("C", (2, some "C"))] = some out ∧
      ((∀ e ∈ ([("C", ((2 : Int), some "C"))] : DV),
          ∃ cur,
            dictGet? [("A", ((0 : Int), none)), ("B", ((1 : Int), some "B")), ("C", ((3 : Int), some "B"))]
              e.1 = some cur ∧ ¬ (1 : Int) + e.2.1 < cur.1) →
        out.dv = [("A", (0, none)), ("B", (1, some "B")), ("C", (3, some "B"))] ∧
        out.changed = false ∧ out.logs = [] ∧ out.sent = []) ∧
      (out.changed = true →
        out.logs = [("A", out.dv)] ∧ out.sent = [(1, "B")].map (fun cn => ("A", cn.2))) :=
  ⟨by decide,
    receive_quiescence_and_broadcast
      ⟨"A", [(1, "B")], [("A", (0, none)), ("B", (1, some "B")), ("C", (3, some "B"))]⟩
      "B" [("C", (2, some "C"))] (1, some "B") (by decide)⟩

theorem dictSet_nonneg (dv : DV) (k : String) (v : Entry) (hv : 0 ≤ v.1)
    (h : ∀ e ∈ dv, 0 ≤ e.2.1) : ∀ e ∈ dictSet dv k v, 0 ≤ e.2.1 := by
  induction dv with
  | nil =>
    intro e he
    have hev : e = (k, v) := by simpa [dictSet] using he
    simp [hev, hv]
  | cons p rest ih =>
    obtain ⟨k0, v0⟩ := p
    intro e he
    simp only [dictSet] at he
    by_cases h0 : k0 = k
    · subst h0
      rw [if_pos rfl] at he
      cases he with
      | head => exact hv
      | tail _ h1 => exact h e (List.mem_cons_of_mem _ h1)
    · rw [if_neg h0] at he
      cases he with
      | head => exact h (k0, v0) (List.mem_cons_self _ _)
      | tail _ h1 => exact ih (fun x hx => h x (List.mem_cons_of_mem _ hx)) e h1

/-- A relaxation step keeps the self entry (0, none) intact whenever the
candidate cost it could write is non-negative: a strict improvement on
cost 0 would need a negative candidate. -/
theorem relaxStep_self (name : String) (lc : Int) (s : String) (acc : DV × Bool)
    (e : String × Entry) (hsum : 0 ≤ lc + e.2.1)
    (h1 : dictGet? acc.1 name = some (0, none)) :
    dictGet? (relaxStep lc s acc e).1 name = some (0, none) := by
  by_cases hed : e.1 = name
  · subst hed
    have hnlt : ¬ lc + e.2.1 < (((0 : Int), (none : Option String))).1 := by
      simpa using not_lt.2 hsum
    simp only [relaxStep, h1, hnlt, if_neg hnlt]
    exact h1
  · rw [relaxStep_get_ne _ _ _ _ _ hed]
    exact h1

/-- A relaxation step keeps every recorded cost non-negative whenever the
candidate cost is non-negative. -/
theorem relaxStep_nonneg (lc : Int) (s : String) (acc : DV × Bool) (e : String × Entry)
    (hsum : 0 ≤ lc + e.2.1) (h2 : ∀ x ∈ acc.1, 0 ≤ x.2.1) :
    ∀ x ∈ (relaxStep lc s acc e).1, 0 ≤ x.2.1 := by
  rcases hg : dictGet? acc.1 e.1 with _ | cur
  · simp only [relaxStep, hg]
    exact dictSet_nonneg _ _ _ hsum h2
  · by_cases hlt : lc + e.2.1 < cur.1
    · simp only [relaxStep, hg, if_pos hlt]
      exact dictSet_nonneg _ _ _ hsum h2
    · simp only [relaxStep, hg, if_neg hlt]
      exact h2

/-- The relaxation loop preserves the pair self entry intact and all
costs non-negative, given a non-negative link cost and a received table
with non-negative costs. -/
theorem foldl_relax_selfNonneg (name : String) (lc : Int) (s : String)
    (es : List (String × Entry)) :
    ∀ acc : DV × Bool, (∀ e ∈ es, 0 ≤ e.2.1) →
      dictGet? acc.1 name = some (0, none) → (∀ x ∈ acc.1, 0 ≤ x.2.1) →
      0 ≤ lc →
      dictGet? (es.foldl (relaxStep lc s) acc).1 name = some (0, none) ∧
        ∀ x ∈ (es.foldl (relaxStep lc s) acc).1, 0 ≤ x.2.1 := by
  induction es with
  | nil => exact fun acc _ h1 h2 _ => ⟨h1, h2⟩
  | cons e es ih =>
    intro acc hes h1 h2 hlc
    have hsum : (0 : Int) ≤ lc + e.2.1 := add_nonneg hlc (hes e (List.mem_cons_self _ _))
    rw [List.foldl_cons]
    exact ih _ (fun x hx => hes x (List.mem_cons_of_mem _ hx))
      (relaxStep_self name lc s acc e hsum h1) (relaxStep_nonneg lc s acc e hsum h2) hlc

/-- One receive call preserves the self entry and the non-negativity of
all recorded costs, for any incoming datagram with non-negative costs. -/
theorem receiveStep_selfNonneg (r : RouterSt) (msg : String × DV)
    (hm : ∀ e ∈ msg.2, 0 ≤ e.2.1)
    (h1 : dictGet? r.dv r.name = some (0, none)) (h2 : ∀ x ∈ r.dv, 0 ≤ x.2.1) :
    dictGet? (receiveStep r msg).dv r.name = some (0, none) ∧
      ∀ x ∈ (receiveStep r msg).dv, 0 ≤ x.2.1 := by
  rcases hg : dictGet? r.dv msg.1 with _ | lcE
  · simp only [receiveStep, receiveFull, hg]
    exact ⟨h1, h2⟩
  · have hlc : (0 : Int) ≤ lcE.1 := h2 _ (dictGet?_mem _ _ _ hg)
    simp only [receiveStep, receiveFull, hg]
    exact foldl_relax_selfNonneg r.name lcE.1 msg.1 msg.2 (r.dv, false) hm h1 h2 hlc

theorem findNeighbors_cons (cn : Int × String) (links : List (Int × String)) (dv : DV) :
    findNeighbors (cn :: links) dv = findNeighbors links (dictSet dv cn.2 (cn.1, some cn.2)) := rfl

/-- Neighbor discovery does not touch keys that are not names of link
destinations. -/
theorem dictGet?_findNeighbors_ne (links : List (Int × String)) :
    ∀ dv : DV, ∀ k : String, (∀ cn ∈ links, cn.2 ≠ k) →
      dictGet? (findNeighbors links dv) k = dictGet? dv k := by
  induction links with
  | nil => exact fun dv k _ => rfl
  | cons cn links ih =>
    intro dv k h
    rw [findNeighbors_cons, ih _ _ (fun x hx => h x (List.mem_cons_of_mem _ hx)),
      dictGet?_dictSet]
    simp [h cn (List.mem_cons_self _ _)]

/-- Neighbor discovery keeps all recorded costs non-negative when the
link costs are non-negative. -/
theorem findNeighbors_nonneg (links : List (Int × String)) :
    ∀ dv : DV, (∀ cn ∈ links, 0 ≤ cn.1) → (∀ x ∈ dv, 0 ≤ x.2.1) →
      ∀ x ∈ findNeighbors links dv, 0 ≤ x.2.1 := by
  induction links with
  | nil => exact fun dv _ h => h
  | cons cn links ih =>
    intro dv hl h
    rw [findNeighbors_cons]
    exact ih _ (fun x hx => hl x (List.mem_cons_of_mem _ hx))
      (dictSet_nonneg dv cn.2 (cn.1, some cn.2) (hl cn (List.mem_cons_self _ _)) h)

theorem receiveStep_name (r : RouterSt) (msg : String × DV) :
    (receiveStep r msg).name = r.name := by
  unfold receiveStep
  rcases receiveFull r msg.1 msg.2 with _ | out <;> rfl

/-- Any sequence of receive calls preserves the self entry and the
non-negativity of all recorded costs, for datagrams with non-negative
costs. -/
theorem receiveMany_selfNonneg (msgs : List (String × DV)) :
    ∀ r : RouterSt, (∀ m ∈ msgs, ∀ e ∈ m.2, 0 ≤ e.2.1) →
      dictGet? r.dv r.name = some (0, none) → (∀ x ∈ r.dv, 0 ≤ x.2.1) →
      dictGet? (receiveMany r msgs).dv r.name = some (0, none) ∧
        ∀ x ∈ (receiveMany r msgs).dv, 0 ≤ x.2.1 := by
  induction msgs with
  | nil => exact fun r _ h1 h2 => ⟨h1, h2⟩
  | cons m ms ih =>
    intro r hm h1 h2
    obtain ⟨h1s, h2s⟩ := receiveStep_selfNonneg r m (hm m (List.mem_cons_self _ _)) h1 h2
    have hname := receiveStep_name r m
    have hrec := ih (receiveStep r m) (fun x hx => hm x (List.mem_cons_of_mem _ hx))
      (by rw [hname]; exact h1s) h2s
    rw [hname] at hrec
    exact hrec

/-- C5: once start has completed on a router built with non-negative link
costs to routers other than itself, its table maps its own name to
(0, none), and no sequence of receive calls on incoming datagrams with
non-negative costs ever overwrites that entry. -/
theorem self_entry_invariant (r : RouterSt) (msgs : List (String × DV))
    (hdv : r.dv = []) (hl : ∀ cn ∈ r.links, 0 ≤ cn.1)
    (hln : ∀ cn ∈ r.links, cn.2 ≠ r.name)
    (hm : ∀ m ∈ msgs, ∀ e ∈ m.2, 0 ≤ e.2.1) :
    dictGet? (startRouter r).dv r.name = some (0, none) ∧
      dictGet? (receiveMany (startRouter r) msgs).dv r.name = some (0, none) := by
  have hstartdv : (startRouter r).dv = findNeighbors r.links (dictSet r.dv r.name (0, none)) := rfl
  have h1 : dictGet? (startRouter r).dv r.name = some (0, none) := by
    rw [hstartdv, dictGet?_findNeighbors_ne r.links _ _ hln, dictGet?_dictSet]
    simp
  have h2 : ∀ x ∈ (startRouter r).dv, 0 ≤ x.2.1 := by
    rw [hstartdv, hdv]
    refine findNeighbors_nonneg r.links _ hl ?_
    intro x hx
    simp [dictSet] at hx
    simp [hx]
  have hres := receiveMany_selfNonneg msgs (startRouter r) hm h1 h2
  exact ⟨h1, hres.1⟩

/-- Witness for C5: a fresh router A with one link of cost 5 to B starts,
then receives the start broadcast of B; the entry for A stays (0, none). -/
theorem self_entry_invariant_witness :
    (⟨"A", [(5, "B")], []⟩ : RouterSt).dv = [] ∧
    dictGet? (startRouter ⟨"A", [(5, "B")], []⟩).dv "A" = some (0, none) ∧
      dictGet? (receiveMany (startRouter ⟨"A", [(5, "B")], []⟩)
        [("B", [("B", (0, none)), ("A", (5, some "A"))])]).dv "A" = some (0, none) :=
  ⟨rfl,
    self_entry_invariant ⟨"A", [(5, "B")], []⟩
      [("B", [("B", (0, none)), ("A", (5, some "A"))])]
      rfl (by decide) (by decide) (by decide)⟩

/-- C9 counterexample: a router A starting with a single link of cost 5
to B changes its table twice during dvr_start (the self entry insert,
then the neighbor entry insert of the discovery), yet emits exactly one
log, and that log does not carry the entry for B although the table at
the end of start does: the neighbor discovery update is never logged, so
no log is emitted for each table change and the single start log does not
reflect the discovery change. -/
theorem start_log_misses_neighbor_discovery :
    (dvrStart ⟨"A", [(5, "B")], []⟩).dv = [("A", (0, none)), ("B", (5, some "B"))] ∧
    (dvrStart ⟨"A", [(5, "B")], []⟩).logs = [("A", [("A", (0, none))])] ∧
    ((dvrStart ⟨"A", [(5, "B")], []⟩).logs.map (fun l => dictGet? l.2 "B")) = [none] :=
  ⟨rfl, rfl, rfl⟩

/-- C9 amended: during start exactly one log is emitted, placed after the
self entry insert and before neighbor discovery, so on a fresh router it
shows only the self entry; each receive call that changes the table emits
exactly one log carrying the full updated table, and a receive that
changes nothing emits none. -/
theorem start_and_receive_logging (r r2 : RouterSt) (hdv : r.dv = []) :
    (dvrStart r).logs = [(r.name, [(r.name, (0, none))])] ∧
    ∀ sender received out, receiveFull r2 sender received = some out →
      out.logs = if out.changed then [(r2.name, out.dv)] else [] := by
  constructor
  · simp [dvrStart, hdv, dictSet]
  · intro sender received out hout
    unfold receiveFull at hout
    rcases hg : dictGet? r2.dv sender with _ | lcE
    · rw [hg] at hout
      cases hout
    · rw [hg] at hout
      cases hout
      rfl

/-- Witness for C9 amended: the start log of a fresh router A with one
link, and the log behavior of a started router receiving a datagram. -/
theorem start_and_receive_logging_witness :
    (⟨"A", [(5, "B")], []⟩ : RouterSt).dv = [] ∧
    (dvrStart ⟨"A", [(5, "B")], []⟩).logs = [("A", [("A", (0, none))])] ∧
    ∀ sender received out,
      receiveFull ⟨"B", [(5, "A")], [("B", (0, none)), ("A", (5, some "A"))]⟩
        sender received = some out →
      out.logs = if out.changed then [("B", out.dv)] else [] :=
  ⟨rfl, start_and_receive_logging ⟨"A", [(5, "B")], []⟩
    ⟨"B", [(5, "A")], [("B", (0, none)), ("A", (5, some "A"))]⟩ rfl⟩

/-- Network built by Network(["A", "B", "C"], [1, 6, 2]): link costs
A-B 1, A-C 6, B-C 2, no datagram in flight yet. -/
def aliasNet0 : Net :=
  { routers :=
      [⟨"A", [(1, "B"), (6, "C")], []⟩,
       ⟨"B", [(1, "A"), (2, "C")], []⟩,
       ⟨"C", [(6, "A"), (2, "B")], []⟩]
    flight := [] }

/-- State after the three routers have run dvr_start: each table holds the
self entry and the direct neighbors, and the six start broadcasts are in
flight. -/
def aliasNet1 : Net := netStart (netStart (netStart aliasNet0 "A") "B") "C"

/-- State after delivering the datagram from B to A, the first delivery
the link delays produce (the B to A link costs 1 while the A to C link
costs 6, so the datagram from A to C is still in flight): A learns the
cheaper path to C through B and mutates its table in place. -/
def aliasNet2 : Net := netDeliver aliasNet1 2

/-- C3: dvr.py line 83 hands Link.send the dict object self._dv itself
rather than a copy, and line 101 mutates that object in place, so a
datagram in flight carries an alias of the sender table, not a value
snapshot. On the network Network(["A", "B", "C"], [1, 6, 2]), after all
three starts the datagram from A to C is in flight reading C at cost 6;
delivering the datagram from B to A mutates the table of A, and the same
in-flight datagram from A to C now reads C at cost 3 via B: a later
mutation of the sender table changed the content of a datagram already in
flight, refuting the immutable value copy stated by the spec. -/
theorem inflight_datagram_content_mutates :
    aliasNet1.flight.get? 2 = some ("B", "A") ∧
    ("A", "C") ∈ aliasNet1.flight ∧
    ("A", "C") ∈ aliasNet2.flight ∧
    datagramContent aliasNet1 ("A", "C") =
      some [("A", (0, none)), ("B", (1, some "B")), ("C", (6, some "C"))] ∧
    datagramContent aliasNet2 ("A", "C") =
      some [("A", (0, none)), ("B", (1, some "B")), ("C", (3, some "B"))] ∧
    datagramContent aliasNet1 ("A", "C") ≠ datagramContent aliasNet2 ("A", "C") :=
  ⟨rfl, by decide, by decide, rfl, rfl, by decide⟩

theorem set_of_get?_eq {α : Type} (l : List α) (i : Nat) (a : α) (h : l.get? i = some a) :
    l.set i a = l := by
  induction l generalizing i with
  | nil => rfl
  | cons x xs ih =>
    cases i with
    | zero =>
      simp only [List.get?] at h
      cases h
      rfl
    | succ n =>
      simp only [List.get?] at h
      simp [List.set, ih n h]

theorem map_fst_addLink (rs : NetRouters) (i : Nat) (c : Int) (j : Nat) :
    (addLink rs i c j).map Prod.fst = rs.map Prod.fst := by
  unfold addLink
  rcases hg : rs.get? i with _ | r
  · rfl
  · rw [List.map_set]
    have hh : (rs.map Prod.fst).get? i = some r.1 := by
      rw [List.get?_eq_getElem?, List.getElem?_map, ← List.get?_eq_getElem?, hg]
      rfl
    exact set_of_get?_eq _ _ _ hh

theorem map_fst_initStep (rs : NetRouters) (pc : (Nat × Nat) × Option Int) :
    (initStep rs pc).map Prod.fst = rs.map Prod.fst := by
  rcases hc : pc.2 with _ | c
  · simp [initStep, hc]
  · by_cases hc0 : c = 0
    · simp [initStep, hc, hc0]
    · simp [initStep, connect, hc, hc0, map_fst_addLink]

theorem map_fst_foldl_initStep (pcs : List ((Nat × Nat) × Option Int)) :
    ∀ rs : NetRouters, (pcs.foldl initStep rs).map Prod.fst = rs.map Prod.fst := by
  induction pcs with
  | nil => exact fun rs => rfl
  | cons pc pcs ih =>
    intro rs
    rw [List.foldl_cons, ih (initStep rs pc), map_fst_initStep]

/-- C4 amended: the Network constructor performs no validation and cannot
fail: on every input, malformed ones included, it builds exactly one
router per identifier, in order (mismatched cost-list lengths are silently
truncated or ignored by zip, duplicate identifiers yield distinct routers
sharing a name, cost 0 entries silently create no link, and negative
costs silently create links). -/
theorem network_init_total_no_validation (names : List String) (costs : List (Option Int)) :
    (networkInit names costs).map Prod.fst = names := by
  unfold networkInit
  rw [map_fst_foldl_initStep, List.map_map]
  have hcomp : (Prod.fst ∘ fun n : String => (n, ([] : List (Int × Nat)))) = id := rfl
  rw [hcomp, List.map_id]

/-- C4 counterexample: three malformed construction inputs on which the
claim requires a construction-time error. Network(["A", "A"], [0]) has
duplicate identifiers and the non-positive cost 0, Network(["A", "B",
"C"], [1]) has a cost list shorter than the three unordered pairs, and
Network(["A", "B"], [-3]) has a negative cost; each silently builds a
network (duplicate-named routers with no link, a network whose trailing
pairs get no link, and a negative-cost link in both directions) and none
fails fast. -/
theorem network_init_accepts_malformed_input :
    networkInit ["A", "A"] [some 0] = [("A", []), ("A", [])] ∧
    networkInit ["A", "B", "C"] [some 1] =
      [("A", [(1, 1)]), ("B", [(1, 0)]), ("C", [])] ∧
    networkInit ["A", "B"] [some (-3)] = [("A", [(-3, 1)]), ("B", [(-3, 0)])] :=
  ⟨rfl, rfl, rfl⟩

/-- Replacing a cost entry holding the integer 0 by None does not change
what the construction fold builds: the truthiness guard skips both. -/
theorem foldl_initStep_zip_set_zero (ps : List (Nat × Nat)) :
    ∀ (costs : List (Option Int)) (i : Nat) (rs : NetRouters),
      costs.get? i = some (some 0) →
      (List.zip ps (costs.set i none)).foldl initStep rs =
        (List.zip ps costs).foldl initStep rs := by
  induction ps with
  | nil => intro costs i rs _; rfl
  | cons p ps ih =>
    intro costs i rs h
    cases costs with
    | nil => cases h
    | cons c costs =>
      cases i with
      | zero =>
        simp only [List.get?] at h
        cases h
        simp only [List.set, List.zip_cons_cons, List.foldl_cons]
        have h1 : initStep rs (p, none) = rs := rfl
        have h2 : initStep rs (p, some 0) = rs := rfl
        rw [h1, h2]
      | succ n =>
        simp only [List.get?] at h
        simp only [List.set, List.zip_cons_cons, List.foldl_cons]
        exact ih costs n (initStep rs (p, c)) h

/-- Padding the cost list with None entries does not change what the
construction fold builds: zip truncation and the truthiness guard agree. -/
theorem foldl_initStep_zip_pad (ps : List (Nat × Nat)) :
    ∀ (costs : List (Option Int)) (k : Nat) (rs : NetRouters),
      (List.zip ps (costs ++ List.replicate k none)).foldl initStep rs =
        (List.zip ps costs).foldl initStep rs := by
  induction ps with
  | nil => intro costs k rs; rfl
  | cons p ps ih =>
    intro costs k rs
    cases costs with
    | nil =>
      cases k with
      | zero => rfl
      | succ n =>
        simp only [List.nil_append, List.replicate_succ, List.zip_cons_cons, List.foldl_cons]
        have h1 : initStep rs (p, none) = rs := rfl
        rw [h1]
        have := ih [] n rs
        simpa using this
    | cons c costs =>
      simp only [List.cons_append, List.zip_cons_cons, List.foldl_cons]
      exact ih costs k (initStep rs (p, c))

/-- C10: the Network constructor treats a pair whose cost entry is the
integer 0 exactly as if the entry were None: the built network, router
names and outgoing link sequences included, is identical, no link is
created in either direction for the pair and nothing fails; and a cost
list shorter than the number of unordered pairs behaves exactly as if
padded with None, so the trailing pairs silently get no link. -/
theorem zero_cost_is_no_link_and_short_list_pads (names : List String)
    (costs : List (Option Int)) (i k : Nat) :
    (costs.get? i = some (some 0) →
      networkInit names (costs.set i none) = networkInit names costs) ∧
    networkInit names (costs ++ List.replicate k none) = networkInit names costs := by
  constructor
  · intro h
    unfold networkInit
    exact foldl_initStep_zip_set_zero _ _ _ _ h
  · unfold networkInit
    exact foldl_initStep_zip_pad _ _ _ _

/-- Witness for C10: on Network(["A", "B", "C"], [0, 2, 3]) the zero cost
entry of the pair A-B behaves exactly as None, and padding the cost list
with one None entry changes nothing. -/
theorem zero_cost_is_no_link_and_short_list_pads_witness :
    ([some 0, some 2, some 3] : List (Option Int)).get? 0 = some (some 0) ∧
    networkInit ["A", "B", "C"] (([some 0, some 2, some 3] : List (Option Int)).set 0 none) =
      networkInit ["A", "B", "C"] [some 0, some 2, some 3] ∧
    networkInit ["A", "B", "C"] (([some 0, some 2, some 3] : List (Option Int)) ++ List.replicate 1 none) =
      networkInit ["A", "B", "C"] [some 0, some 2, some 3] :=
  ⟨rfl,
    (zero_cost_is_no_link_and_short_list_pads ["A", "B", "C"] [some 0, some 2, some 3] 0 1).1 rfl,
    (zero_cost_is_no_link_and_short_list_pads ["A", "B", "C"] [some 0, some 2, some 3] 0 1).2⟩

end DVR
